import Mathlib

/-!
Verification of the hugot message-dispatch core (`mux.go`).

The Go source is shallowly embedded: pure record types model the Go
structs, handler interface values become records of Lean functions, and
the side effects of a `Handle` call (writes to the response writer and
handler invocations) are recorded as an explicit event trace.  Pointer
mutation of the `*Message` argument is modelled by threading the message
value: a call that in Go receives `&mc` of a fresh copy `mc := *m` has
its returned message discarded, while a call that receives `m` itself
has its returned message threaded into the continuation.
-/

namespace Hugot

/-- Modelled from the spec: the `Message` type lives in `message.go`,
which is not part of the sources under verification.  The spec describes
it as a value carrying sender/channel identity, raw text, a `ToBot`
flag, and the token sequence `args`. -/
structure Message where
  channel : String
  text : String
  toBot : Bool
  args : List String
  deriving DecidableEq, Repr

/-- Modelled from the spec: the error values of `handler.go` (not under
verification).  `nextCommand`, `skipHears` and `unknownCommand` are the
distinguished sentinel values `ErrNextCommand`, `ErrSkipHears` and
`ErrUnknownCommand`; `other s` is any other Go error with message `s`
(such as one produced by `fmt.Errorf`).  Two `other` errors with the
same text are identified, which is harmless here: the dispatch logic
compares errors against the sentinels only, and an `fmt.Errorf` value is
never identical to a sentinel, which the constructor distinction
preserves. -/
inductive Err where
  | nextCommand
  | skipHears
  | unknownCommand
  | other (s : String)
  deriving DecidableEq, Repr

/-- The `Error()` string of an error value.  The sentinel texts live in
`handler.go` (not under verification) and are modelled from the spec's
names for them. -/
def Err.text : Err → String
  | .nextCommand => "next command"
  | .skipHears => "skip hears"
  | .unknownCommand => "unknown command"
  | .other s => s

/-- One observable effect of a `Handle` call:
a write to the response writer, the start of a raw-handler goroutine
with the message value it received, the invocation of a (plain) command
handler with the message value it received, or the invocation of a
hears handler with the message value it received. -/
inductive Event where
  | write (s : String)
  | rawStart (name : String) (m : Message)
  | cmdInvoke (name : String) (m : Message)
  | hearsInvoke (name : String) (m : Message)
  deriving DecidableEq, Repr

/-- A registered `RawHandler` interface value: only its self-description
is observable, since its `Handle` runs in a goroutine on a private copy
of the message and neither its error nor its mutations are observable. -/
structure RawHandler where
  name : String
  desc : String
  deriving DecidableEq, Repr

/-- A registered `BackgroundHandler` interface value. -/
structure BackgroundHandler where
  name : String
  desc : String
  deriving DecidableEq, Repr

/-- A registered `HearsHandler` interface value: self-description, the
compiled pattern returned by `Hears()` (modelled as its match predicate
on the message text, plus an identity token `patternId` standing for the
`*regexp.Regexp` pointer used as the registry key), and the `Hear`
body, returning the lines it writes, its handled/not-handled boolean,
and the (discarded) mutated message. -/
structure HearsHandler where
  name : String
  desc : String
  patternId : Nat
  pattern : String → Bool
  hear : Message → List String × Bool × Message

/-- A registered `HTTPHandler` interface value: only its
self-description matters to the registration logic under study. -/
structure HTTPHandler where
  name : String
  desc : String
  deriving DecidableEq, Repr

mutual
/-- A `CommandHandler` interface value: either a plain handler (its
self-description and its `Command` body, returning written lines, an
optional error, and the message as possibly mutated through the
pointer), or a `*CommandMux` (which implements `CommandHandler` through
its embedded handler and its own `Command` method). -/
inductive CommandHandler where
  | plain (name : String) (desc : String)
      (run : Message → List String × Option Err × Message)
  | mux (node : CommandMux)

/-- `CommandMux` from `mux.go`: an embedded base `CommandHandler`
(possibly nil) and the `subCmds` map, modelled as an association list
with unique keys (Go map insertion overwrites). -/
inductive CommandMux where
  | mk (base : Option CommandHandler) (subCmds : List (String × CommandMux))
end

/-- The embedded base handler of a `CommandMux`. -/
def CommandMux.base : CommandMux → Option CommandHandler
  | .mk b _ => b

/-- The `subCmds` map of a `CommandMux`. -/
def CommandMux.subCmds : CommandMux → List (String × CommandMux)
  | .mk _ s => s

/-- `NewCommandMux` from `mux.go`: wraps the given base handler with an
empty subcommand map. -/
def NewCommandMux (base : Option CommandHandler) : CommandMux :=
  .mk base []

mutual
/-- The name half of `Describe()` on a `CommandHandler`.  On a
`*CommandMux` this delegates to the embedded handler; a `CommandMux`
with a nil base would panic in Go (method call on a nil interface) and
is modelled as the empty string, a case none of the verified claims
exercises. -/
def CommandHandler.cname : CommandHandler → String
  | .plain n _ _ => n
  | .mux node => CommandMux.cname node

/-- The name half of `Describe()` on a `CommandMux` (via its embedded
handler). -/
def CommandMux.cname : CommandMux → String
  | .mk (some h) _ => CommandHandler.cname h
  | .mk none _ => ""
end

mutual
/-- Modelled from the spec: `RunCommandHandler` of `handler.go` (not
under verification) is the invocation wrapper for one command handler;
the spec treats it as an external primitive that executes the handler
with panic/error normalization.  Panics do not exist in the model, so it
invokes the handler's `Command` method directly, recording the
invocation of a plain handler as an event together with the lines it
writes. -/
def RunCommandHandler : CommandHandler → Message → List Event × Option Err × Message
  | .plain n _ run, m =>
    let r := run m
    (Event.cmdInvoke n m :: r.1.map Event.write, r.2.1, r.2.2)
  | .mux node, m => CommandMux.Command node m

/-- `CommandMux.Command` from `mux.go`: run the base handler (or take
`ErrNextCommand` when there is none); any result other than
`ErrNextCommand` is final; otherwise resolve `args[0]` against the
subcommand map, failing with `missing sub-command` on empty args and
`ErrUnknownCommand` on a miss.  The message is threaded (same pointer
throughout in Go), and events accumulate left to right. -/
def CommandMux.Command : CommandMux → Message → List Event × Option Err × Message
  | .mk base subs, m =>
    let br : List Event × Option Err × Message :=
      match base with
      | some h => RunCommandHandler h m
      | none => ([], some Err.nextCommand, m)
    if br.2.1 ≠ some Err.nextCommand then br
    else
      match (br.2.2).args with
      | [] => (br.1, some (Err.other "missing sub-command"), br.2.2)
      | a :: _ =>
        match subsCommand subs a br.2.2 with
        | some r => (br.1 ++ r.1, r.2.1, r.2.2)
        | none => (br.1, some Err.unknownCommand, br.2.2)

/-- Lookup of `subs[m.args[0]]` fused with the recursive dispatch into
the found child: returns `none` exactly when the key is absent (the
`ErrUnknownCommand` case of `Command`). -/
def subsCommand : List (String × CommandMux) → String → Message → Option (List Event × Option Err × Message)
  | [], _, _ => none
  | (k, child) :: rest, key, m =>
    if k == key then some (CommandMux.Command child m)
    else subsCommand rest key m
end

/-- Modelled from the spec: `RunHearsHandler` of `handler.go` (not
under verification).  Per the spec, a hears handler is "invoked with an
isolated copy of the message if the message matches the pattern", and
reports a handled/not-handled boolean.  On a match the invocation and
the handler's writes are recorded and its boolean returned; the mutated
message of the copy is discarded.  On a miss nothing happens and the
result is `false`. -/
def RunHearsHandler (h : HearsHandler) (m : Message) : List Event × Bool :=
  if h.pattern m.text then
    let r := h.hear m
    (Event.hearsInvoke h.name m :: r.1.map Event.write, r.2.1)
  else ([], false)

/-- The inner loop of the hears phase of `Mux.Handle`: run every
handler of one pattern's list against the message, accumulating events;
the boolean is true when some invocation reported handled (in the Go
code, `err = nil` executed at least once). -/
def runHearsList : List HearsHandler → Message → List Event × Bool
  | [], _ => ([], false)
  | h :: rest, m =>
    let r := RunHearsHandler h m
    let rr := runHearsList rest m
    (r.1 ++ rr.1, r.2 || rr.2)

/-- The outer loop of the hears phase of `Mux.Handle`, over the entries
of the `hears` registry. -/
def runHearsAll : List (Nat × List HearsHandler) → Message → List Event × Bool
  | [], _ => ([], false)
  | (_, hs) :: rest, m =>
    let r := runHearsList hs m
    let rr := runHearsAll rest m
    (r.1 ++ rr.1, r.2 || rr.2)

/-- A `Handler` interface value as seen by the generic `Mux.Add`: a
self-description together with the set of narrower handler interfaces
the underlying object also implements (in Go, what its type assertions
to `RawHandler`, `BackgroundHandler`, `CommandHandler`, `HearsHandler`
and `HTTPHandler` yield). -/
structure GenHandler where
  name : String
  desc : String
  raw : Option RawHandler
  bg : Option BackgroundHandler
  cmd : Option CommandHandler
  hears : Option HearsHandler
  http : Option HTTPHandler

/-- The internal path router (`*http.ServeMux`): a binding of path
patterns to HTTP handlers.  `net/http` is an external collaborator, not
part of the sources under verification; per the spec, registering under
an already-bound path overwrites the binding. -/
structure ServeMux where
  entries : List (String × HTTPHandler)
  deriving DecidableEq, Repr

/-- Association-list insertion with overwrite on an existing key, the
update semantics of the modelled path router. -/
def insertPath : List (String × HTTPHandler) → String → HTTPHandler → List (String × HTTPHandler)
  | [], p, h => [(p, h)]
  | (k, v) :: rest, p, h =>
    if k == p then (p, h) :: rest else (k, v) :: insertPath rest p h

/-- Binding a handler at a path in the router. -/
def ServeMux.Handle (sm : ServeMux) (p : String) (h : HTTPHandler) : ServeMux :=
  ⟨insertPath sm.entries p h⟩

/-- `Mux` from `mux.go`.  The `sync.RWMutex` is omitted: locking only
serializes registration against dispatch and is not observable in the
sequential model.  The `hears` map from `*regexp.Regexp` to handler
lists is an association list keyed by the pattern object's identity
token. -/
structure Mux where
  name : String
  desc : String
  hndlrs : List GenHandler
  rhndlrs : List RawHandler
  bghndlrs : List BackgroundHandler
  hears : List (Nat × List HearsHandler)
  cmds : CommandMux
  httpm : ServeMux

/-- Go map update `mx.hears[r] = append(mx.hears[r], h)`: append to the
handler list of the entry keyed by the pattern identity `r`, creating
the entry when absent. -/
def insertHears : List (Nat × List HearsHandler) → Nat → HearsHandler → List (Nat × List HearsHandler)
  | [], r, h => [(r, [h])]
  | (k, hs) :: rest, r, h =>
    if k == r then (k, hs ++ [h]) :: rest else (k, hs) :: insertHears rest r h

/-- Go map update `cx.subCmds[n] = v` (overwrite on an existing key). -/
def insertSub : List (String × CommandMux) → String → CommandMux → List (String × CommandMux)
  | [], k, v => [(k, v)]
  | (k0, v0) :: rest, k, v =>
    if k0 == k then (k, v) :: rest else (k0, v0) :: insertSub rest k v

/-- `CommandMux.AddCommandHandler` from `mux.go`: reads the handler's
name; a handler that is itself a `*CommandMux` is installed directly
under that name, otherwise a new node wrapping it is created and
installed.  Returns the updated node together with the returned
`*CommandMux` pointer — note that in the pre-built `*CommandMux` branch
the local `subMux` variable is never assigned, so the Go function
returns nil there, modelled as `none`. -/
def CommandMux.AddCommandHandler (cx : CommandMux) (c : CommandHandler) : CommandMux × Option CommandMux :=
  let n := c.cname
  match c with
  | .mux ccx => (.mk cx.base (insertSub cx.subCmds n ccx), none)
  | .plain nm d run =>
    let subMux := NewCommandMux (some (.plain nm d run))
    (.mk cx.base (insertSub cx.subCmds n subMux), some subMux)

/-- `Mux.AddRawHandler`: append under the write lock; always returns a
nil error. -/
def Mux.AddRawHandler (mx : Mux) (h : RawHandler) : Mux × Option Err :=
  ({ mx with rhndlrs := mx.rhndlrs ++ [h] }, none)

/-- `Mux.AddBackgroundHandler`: append under the write lock; always
returns a nil error. -/
def Mux.AddBackgroundHandler (mx : Mux) (h : BackgroundHandler) : Mux × Option Err :=
  ({ mx with bghndlrs := mx.bghndlrs ++ [h] }, none)

/-- `Mux.AddHearsHandler`: read the handler's pattern and append the
handler to that pattern's list; always returns a nil error. -/
def Mux.AddHearsHandler (mx : Mux) (h : HearsHandler) : Mux × Option Err :=
  ({ mx with hears := insertHears mx.hears h.patternId h }, none)

/-- `Mux.AddCommandHandler`: delegate to the root command tree's
registration, returning the sub-tree pointer it returns. -/
def Mux.AddCommandHandler (mx : Mux) (h : CommandHandler) : Mux × Option CommandMux :=
  let r := mx.cmds.AddCommandHandler h
  ({ mx with cmds := r.1 }, r.2)

/-- `Mux.AddHTTPHandler`: compute the path
`fmt.Sprintf("/%s/%s", mx.name, n)` from the mux name and the handler's
name, bind the handler at that path in the router, and return the path
(the `Path` field of the returned `*url.URL`). -/
def Mux.AddHTTPHandler (mx : Mux) (h : HTTPHandler) : Mux × String :=
  let p := "/" ++ mx.name ++ "/" ++ h.name
  ({ mx with httpm := mx.httpm.Handle p h }, p)

/-- `Mux.Add` from `mux.go`: probe the handler against each capability
in source order (raw, background, command, hears, HTTP), registering it
into every matching registry; if none matched, fail with the "don't
know how to use" error (the Go message interpolates the dynamic type
via `%T`, which the model does not carry); otherwise append the handler
to the flat `hndlrs` list and return a nil error. -/
def Mux.Add (mx : Mux) (h : GenHandler) : Mux × Option Err :=
  let s1 : Mux × Bool :=
    match h.raw with
    | some r => ((mx.AddRawHandler r).1, true)
    | none => (mx, false)
  let s2 : Mux × Bool :=
    match h.bg with
    | some b => ((s1.1.AddBackgroundHandler b).1, true)
    | none => s1
  let s3 : Mux × Bool :=
    match h.cmd with
    | some c => ((s2.1.AddCommandHandler c).1, true)
    | none => s2
  let s4 : Mux × Bool :=
    match h.hears with
    | some hh => ((s3.1.AddHearsHandler hh).1, true)
    | none => s3
  let s5 : Mux × Bool :=
    match h.http with
    | some hh => ((s4.1.AddHTTPHandler hh).1, true)
    | none => s4
  if s5.2 then
    ({ s5.1 with hndlrs := s5.1.hndlrs ++ [h] }, none)
  else
    (s5.1, some (Err.other "Don't know how to use this as a handler"))

/-- Modelled from the spec: the `muxHelp` handler of `help.go` is not
part of the sources under verification.  The spec describes it as a
self-describing "help" command handler pre-registered on every Mux that
enumerates the available commands; only its name and its registration
matter to the claims considered, so its body is modelled as writing a
help line. -/
def muxHelp : CommandHandler :=
  .plain "help" "provides help on the available commands"
    (fun m => (["help"], none, m))

/-- `NewMux` from `mux.go`: fresh empty registries, a root command tree
with a nil base, a fresh path router, and the help handler registered
into the command tree. -/
def NewMux (name desc : String) : Mux :=
  let mx : Mux :=
    { name := name
      desc := desc
      hndlrs := []
      rhndlrs := []
      bghndlrs := []
      hears := []
      cmds := NewCommandMux none
      httpm := ⟨[]⟩ }
  (mx.AddCommandHandler muxHelp).1

/-- The observable outcome of one `Mux.Handle` call: the event trace
(writer output and synchronous handler invocations), the returned
error, and the caller's message value after the call (the `*Message`
it passed may have been mutated through the pointer). -/
structure HandleResult where
  events : List Event
  ret : Option Err
  msg : Message

/-- `Mux.Handle` from `mux.go`: start a goroutine per raw handler, each
on its own copy of the message; if `m.ToBot`, run the command tree on
the message itself and hold the resulting error; if the held error is
`ErrSkipHears`, return nil at once; otherwise run every hears handler
(each on its own copy of the message as left by the command phase),
clearing the held error whenever an invocation reports handled; if an
error is still held, write `"error, <text>"` to the writer; return
nil. -/
def Mux.Handle (mx : Mux) (m : Message) : HandleResult :=
  let re := mx.rhndlrs.map (fun rh => Event.rawStart rh.name m)
  let cr : List Event × Option Err × Message :=
    if m.toBot then CommandMux.Command mx.cmds m else ([], none, m)
  if cr.2.1 = some Err.skipHears then
    { events := re ++ cr.1, ret := none, msg := cr.2.2 }
  else
    let hr := runHearsAll mx.hears cr.2.2
    let errF : Option Err := if hr.2 then none else cr.2.1
    { events := re ++ cr.1 ++ hr.1 ++
        (match errF with
         | some e => [Event.write ("error, " ++ e.text)]
         | none => [])
      ret := none
      msg := cr.2.2 }

/-! Derived quantities of a `Handle` call, named after the spec's
description of the algorithm. -/

/-- The raw-handler phase of `Handle`: one goroutine start per
registered raw handler, each handed the incoming message value. -/
def Mux.rawEvents (mx : Mux) (m : Message) : List Event :=
  mx.rhndlrs.map (fun rh => Event.rawStart rh.name m)

/-- The command phase of `Handle`: the command tree runs on the message
itself when `m.ToBot` is set, and is skipped otherwise. -/
def Mux.cmdPhase (mx : Mux) (m : Message) : List Event × Option Err × Message :=
  if m.toBot then CommandMux.Command mx.cmds m else ([], none, m)

/-- The message as the command phase leaves it (the caller's `*Message`
is passed to the command tree, so command handlers mutate it in
place). -/
def Mux.msgAfterCmd (mx : Mux) (m : Message) : Message :=
  (mx.cmdPhase m).2.2

/-- The error still held after command and hears processing: the
command phase's error, unless it was the consumed `ErrSkipHears`
sentinel or some hears invocation reported handled. -/
def Mux.heldErr (mx : Mux) (m : Message) : Option Err :=
  let cr := mx.cmdPhase m
  if cr.2.1 = some Err.skipHears then none
  else if (runHearsAll mx.hears cr.2.2).2 then none else cr.2.1

/-- The single user-visible failure line `Handle` writes for a
remaining error. -/
def errorLine (e : Err) : Event :=
  Event.write ("error, " ++ e.text)

/-- Events a command-tree dispatch can produce: plain-command-handler
invocations and writer output, nothing else. -/
def Event.cmdish : Event → Bool
  | .cmdInvoke _ _ => true
  | .write _ => true
  | _ => false

/-- Transcription of the claimed dispatch algorithm of a `CommandMux`
node, following the spec's words: invoke the bound base handler first
and make any result other than the defer sentinel final; with no base
handler, or a deferring one, fail with a "missing sub-command" error on
empty args; recurse into the child named by `args[0]` when the
subcommand map has it; fail with the unknown-command sentinel
otherwise.  To be compared with the source transcription
`CommandMux.Command`. -/
def commandSpec (cx : CommandMux) (m : Message) : List Event × Option Err × Message :=
  let br : List Event × Option Err × Message :=
    match cx.base with
    | some h => RunCommandHandler h m
    | none => ([], some Err.nextCommand, m)
  if br.2.1 ≠ some Err.nextCommand then br
  else
    match (br.2.2).args with
    | [] => (br.1, some (Err.other "missing sub-command"), br.2.2)
    | a :: _ =>
      match List.lookup a cx.subCmds with
      | some child =>
        let r := CommandMux.Command child br.2.2
        (br.1 ++ r.1, r.2.1, r.2.2)
      | none => (br.1, some Err.unknownCommand, br.2.2)

/-! Concrete fixtures used by counterexamples and witnesses. -/

/-- Fixture: a command handler that returns the skip-hears sentinel. -/
def skipCmd : CommandHandler :=
  .plain "skip" "opts out of hears" (fun m => ([], some Err.skipHears, m))

/-- Fixture: a command handler that fails with a business-logic error. -/
def boomCmd : CommandHandler :=
  .plain "boom" "always fails" (fun m => ([], some (Err.other "kaboom"), m))

/-- Fixture: a command handler that mutates the message text through
the pointer. -/
def mutCmd : CommandHandler :=
  .plain "mut" "mutates the message"
    (fun m => ([], none, { m with text := "mutated" }))

/-- Fixture: a hears handler matching every text, echoing it, and
reporting not handled. -/
def hearsEcho : HearsHandler :=
  ⟨"hh", "echoes", 0, fun _ => true, fun m => (["heard " ++ m.text], false, m)⟩

/-- Fixture: a mux with the skip-hears command and the echo hears
handler registered. -/
def mxSkip : Mux :=
  (((NewMux "x" "").AddCommandHandler skipCmd).1.AddHearsHandler hearsEcho).1

/-- Fixture: a message invoking the skip command. -/
def mSkip : Message := ⟨"ch", "t", true, ["skip"]⟩

/-- Fixture: a mux with the failing command and the echo hears handler
registered. -/
def mxBoom : Mux :=
  (((NewMux "x" "").AddCommandHandler boomCmd).1.AddHearsHandler hearsEcho).1

/-- Fixture: a message invoking the failing command. -/
def mBoom : Message := ⟨"ch", "t", true, ["boom"]⟩

/-- Fixture: a mux with the mutating command and the echo hears handler
registered. -/
def mxMut : Mux :=
  (((NewMux "x" "").AddCommandHandler mutCmd).1.AddHearsHandler hearsEcho).1

/-- Fixture: a message invoking the mutating command. -/
def mMut : Message := ⟨"ch", "orig", true, ["mut"]⟩

/-- Fixture: `mMut` as left by the mutating command handler. -/
def mMutated : Message := ⟨"ch", "mutated", true, ["mut"]⟩

/-- Fixture: a message not addressed to the bot. -/
def mNotToBot : Message := ⟨"ch", "orig", false, ["mut"]⟩

/-- Fixture: a pre-built sub-tree whose embedded base handler names it
"sub". -/
def preBuilt : CommandMux :=
  NewCommandMux (some (.plain "sub" "a pre-built sub tree"
    (fun m => (["sub"], none, m))))

/-- The "unusable handler" registration error of `Mux.Add`. -/
def unusableErr : Err := Err.other "Don't know how to use this as a handler"

/-- True when a handler implements none of the five capabilities. -/
def GenHandler.unusable (h : GenHandler) : Bool :=
  h.raw.isNone && h.bg.isNone && h.cmd.isNone && h.hears.isNone && h.http.isNone

theorem RunCommandHandler_plain (n d : String)
    (run : Message → List String × Option Err × Message) (m : Message) :
    RunCommandHandler (.plain n d run) m =
      ((run m).1.map Event.write |>.cons (Event.cmdInvoke n m),
        (run m).2.1, (run m).2.2) := rfl

theorem RunCommandHandler_mux (node : CommandMux) (m : Message) :
    RunCommandHandler (.mux node) m = CommandMux.Command node m := rfl

theorem Command_mk (base : Option CommandHandler)
    (subs : List (String × CommandMux)) (m : Message) :
    CommandMux.Command (.mk base subs) m =
      (let br : List Event × Option Err × Message :=
        match base with
        | some h => RunCommandHandler h m
        | none => ([], some Err.nextCommand, m)
      if br.2.1 ≠ some Err.nextCommand then br
      else
        match (br.2.2).args with
        | [] => (br.1, some (Err.other "missing sub-command"), br.2.2)
        | a :: _ =>
          match subsCommand subs a br.2.2 with
          | some r => (br.1 ++ r.1, r.2.1, r.2.2)
          | none => (br.1, some Err.unknownCommand, br.2.2)) := by
  unfold CommandMux.Command
  rfl

theorem subsCommand_nil (key : String) (m : Message) :
    subsCommand [] key m = none := rfl

theorem subsCommand_cons (k : String) (child : CommandMux)
    (rest : List (String × CommandMux)) (key : String) (m : Message) :
    subsCommand ((k, child) :: rest) key m =
      (if k == key then some (CommandMux.Command child m)
       else subsCommand rest key m) := rfl

/-- Every event of a command-handler invocation is a plain-handler
invocation record or a writer line (in particular, never a hears
invocation or a raw-handler start).  Proved simultaneously for
`RunCommandHandler` and the fused lookup `subsCommand` by strong
induction on the size of the handler / subcommand list. -/
theorem cmdish_aux : ∀ n : Nat,
    (∀ h : CommandHandler, sizeOf h ≤ n → ∀ m : Message,
        ∀ e ∈ (RunCommandHandler h m).1, e.cmdish = true) ∧
    (∀ subs : List (String × CommandMux), sizeOf subs ≤ n →
        ∀ (key : String) (m : Message) (r : List Event × Option Err × Message),
        subsCommand subs key m = some r → ∀ e ∈ r.1, e.cmdish = true) := by
  intro n
  induction n using Nat.strong_induction_on with
  | _ n ih =>
    constructor
    · intro h hle m e he
      cases h with
      | plain nm d run =>
        rw [RunCommandHandler_plain] at he
        rcases he with _ | ⟨_, hw⟩
        · rfl
        · rcases List.mem_map.1 hw with ⟨s, _, rfl⟩
          rfl
      | mux node =>
        cases node with
        | mk base subs =>
          rw [RunCommandHandler_mux, Command_mk] at he
          have hsub : sizeOf subs < n := by
            have := hle
            simp only [CommandHandler.mux.sizeOf_spec,
              CommandMux.mk.sizeOf_spec] at this
            omega
          cases base with
          | none =>
            simp only [] at he
            split at he
            · simp at he
            · split at he
              · simp at he
              · split at he
                · rename_i r hr
                  simp only [List.nil_append] at he
                  exact (ih (n - 1) (by omega)).2 subs (by omega) _ _ r hr e he
                · simp at he
          | some hb =>
            have hb' : sizeOf hb < n := by
              have := hle
              simp only [CommandHandler.mux.sizeOf_spec,
                CommandMux.mk.sizeOf_spec, Option.some.sizeOf_spec] at this
              omega
            have hbase : ∀ e' ∈ (RunCommandHandler hb m).1, e'.cmdish = true :=
              fun e' he' =>
                (ih (n - 1) (by omega)).1 hb (by omega) m e' he'
            simp only [] at he
            split at he
            · exact hbase e he
            · split at he
              · exact hbase e he
              · split at he
                · rename_i r hr
                  rcases List.mem_append.1 he with h1 | h2
                  · exact hbase e h1
                  · exact (ih (n - 1) (by omega)).2 subs (by omega) _ _ r hr e h2
                · exact hbase e he
    · intro subs hle key m r hr e he
      induction subs with
      | nil => simp [subsCommand_nil] at hr
      | cons kc rest ihl =>
        obtain ⟨k, child⟩ := kc
        rw [subsCommand_cons] at hr
        split at hr
        · cases hr
          have hchild : sizeOf (CommandHandler.mux child) ≤ n - 1 := by
            have := hle
            simp only [List.cons.sizeOf_spec, Prod.mk.sizeOf_spec,
              CommandHandler.mux.sizeOf_spec] at this ⊢
            omega
          have hn : 1 ≤ n := by
            have := hle
            simp only [List.cons.sizeOf_spec] at this
            omega
          exact (ih (n - 1) (by omega)).1 (.mux child) hchild m e
            (by rw [RunCommandHandler_mux]; exact he)
        · have hrest : sizeOf rest ≤ n := by
            have := hle
            simp only [List.cons.sizeOf_spec] at this
            omega
          exact ihl hrest hr

/-- Every event a command-tree dispatch produces is a plain-handler
invocation or a writer line. -/
theorem command_events_cmdish (cx : CommandMux) (m : Message) :
    ∀ e ∈ (CommandMux.Command cx m).1, e.cmdish = true := by
  intro e he
  exact (cmdish_aux (sizeOf (CommandHandler.mux cx))).1 (.mux cx) le_rfl m e
    (by rw [RunCommandHandler_mux]; exact he)

/-- Every event of one hears invocation is the invocation record
(carrying exactly the message handed to the handler) or a writer
line. -/
theorem runHearsHandler_events (h : HearsHandler) (m : Message) :
    ∀ e ∈ (RunHearsHandler h m).1,
      (∃ s, e = Event.write s) ∨ ∃ nm, e = Event.hearsInvoke nm m := by
  intro e he
  unfold RunHearsHandler at he
  split at he
  · rcases he with _ | ⟨_, hw⟩
    · exact Or.inr ⟨h.name, rfl⟩
    · rcases List.mem_map.1 hw with ⟨s, _, rfl⟩
      exact Or.inl ⟨s, rfl⟩
  · simp at he

/-- Every event of one pattern's hears loop is a writer line or a hears
invocation carrying exactly the message of this `Handle` call's hears
phase. -/
theorem runHearsList_events (hs : List HearsHandler) (m : Message) :
    ∀ e ∈ (runHearsList hs m).1,
      (∃ s, e = Event.write s) ∨ ∃ nm, e = Event.hearsInvoke nm m := by
  induction hs with
  | nil => simp [runHearsList]
  | cons h rest ihl =>
    intro e he
    simp only [runHearsList] at he
    rcases List.mem_append.1 he with h1 | h2
    · exact runHearsHandler_events h m e h1
    · exact ihl e h2

/-- Every event of the whole hears phase is a writer line or a hears
invocation carrying exactly the post-command-phase message. -/
theorem runHearsAll_events (L : List (Nat × List HearsHandler)) (m : Message) :
    ∀ e ∈ (runHearsAll L m).1,
      (∃ s, e = Event.write s) ∨ ∃ nm, e = Event.hearsInvoke nm m := by
  induction L with
  | nil => simp [runHearsAll]
  | cons p rest ihl =>
    obtain ⟨k, hs⟩ := p
    intro e he
    simp only [runHearsAll] at he
    rcases List.mem_append.1 he with h1 | h2
    · exact runHearsList_events hs m e h1
    · exact ihl e h2

/-- Every event of the raw phase is a raw-handler start carrying
exactly the incoming message. -/
theorem rawEvents_shape (mx : Mux) (m : Message) :
    ∀ e ∈ mx.rawEvents m, ∃ nm, e = Event.rawStart nm m := by
  intro e he
  rcases List.mem_map.1 he with ⟨rh, _, rfl⟩
  exact ⟨rh.name, rfl⟩

/-- The fused lookup-and-dispatch `subsCommand` agrees with looking the
key up in the subcommand map and dispatching into the found child. -/
theorem subsCommand_eq_lookup (subs : List (String × CommandMux))
    (key : String) (m : Message) :
    subsCommand subs key m =
      (List.lookup key subs).map (fun child => CommandMux.Command child m) := by
  induction subs with
  | nil => rfl
  | cons kc rest ihl =>
    obtain ⟨k, child⟩ := kc
    rw [subsCommand_cons]
    by_cases hk : k = key
    · subst hk
      simp [List.lookup]
    · have hk1 : (k == key) = false := beq_eq_false_iff_ne.2 hk
      have hk2 : (key == k) = false := beq_eq_false_iff_ne.2 (Ne.symm hk)
      simp [List.lookup, hk1, hk2, ihl]

/-- Unfolding of `Mux.Handle` in terms of the named phases. -/
theorem Handle_eq (mx : Mux) (m : Message) :
    mx.Handle m =
      (if (mx.cmdPhase m).2.1 = some Err.skipHears then
        { events := mx.rawEvents m ++ (mx.cmdPhase m).1
          ret := none
          msg := (mx.cmdPhase m).2.2 }
      else
        { events := mx.rawEvents m ++ (mx.cmdPhase m).1
            ++ (runHearsAll mx.hears (mx.cmdPhase m).2.2).1
            ++ (match (if (runHearsAll mx.hears (mx.cmdPhase m).2.2).2 then none
                       else (mx.cmdPhase m).2.1) with
                | some e => [errorLine e]
                | none => [])
          ret := none
          msg := (mx.cmdPhase m).2.2 }) := by
  unfold Mux.Handle Mux.rawEvents Mux.cmdPhase errorLine
  rfl

/-- C2: `CommandMux.Command` implements exactly the claimed routing:
base handler first, any non-defer result final; then missing
sub-command on empty args, recursion into the named child, or the
unknown-command error. -/
theorem command_follows_spec (cx : CommandMux) (m : Message) :
    CommandMux.Command cx m = commandSpec cx m := by
  obtain ⟨base, subs⟩ := cx
  rw [Command_mk]
  unfold commandSpec
  simp only [CommandMux.base, CommandMux.subCmds, subsCommand_eq_lookup]
  generalize (match base with
      | some h => RunCommandHandler h m
      | none => (([] : List Event), some Err.nextCommand, m)) = br
  obtain ⟨ev, er, mm⟩ := br
  dsimp only
  by_cases hc : er = some Err.nextCommand
  · subst hc
    simp only [ne_eq, not_true_eq_false, if_false, reduceIte]
    cases mm.args with
    | nil => rfl
    | cons a rest =>
      cases hl : List.lookup a subs <;> simp [hl]
  · simp [hc]

/-- C1: `Mux.Handle` always returns a nil error to its caller, whatever
the command tree or the hears handlers returned, and the writer
receives, beyond the output produced by the handlers themselves,
exactly one `"error, <details>"` line when an unsuppressed error
remains held after command and hears processing, and no such line when
none remains. -/
theorem handle_always_nil_one_error_line (mx : Mux) (m : Message) :
    (mx.Handle m).ret = none ∧
    (mx.Handle m).events =
      mx.rawEvents m ++ (mx.cmdPhase m).1 ++
        (if (mx.cmdPhase m).2.1 = some Err.skipHears then []
         else (runHearsAll mx.hears (mx.cmdPhase m).2.2).1) ++
        (match mx.heldErr m with
         | some e => [errorLine e]
         | none => []) := by
  rw [Handle_eq]
  unfold Mux.heldErr
  by_cases hskip : (mx.cmdPhase m).2.1 = some Err.skipHears
  · simp [hskip]
  · by_cases hh : (runHearsAll mx.hears (mx.cmdPhase m).2.2).2
    · simp [hskip, hh]
    · simp [hskip, hh]

/-- C3: when the command phase of a `Handle` call yields exactly the
skip-hears sentinel, `Handle` returns nil immediately, its trace is
just the raw-handler starts followed by the command-phase events, and
no hears handler is invoked for this message. -/
theorem skiphears_suppresses_hears (mx : Mux) (m : Message)
    (h : (mx.cmdPhase m).2.1 = some Err.skipHears) :
    (mx.Handle m).ret = none ∧
    (mx.Handle m).events = mx.rawEvents m ++ (mx.cmdPhase m).1 ∧
    ∀ n mm, Event.hearsInvoke n mm ∉ (mx.Handle m).events := by
  rw [Handle_eq, if_pos h]
  refine ⟨rfl, rfl, ?_⟩
  intro n mm hmem
  rcases List.mem_append.1 hmem with h1 | h2
  · rcases rawEvents_shape mx m _ h1 with ⟨nm, heq⟩
    exact Event.noConfusion heq
  · unfold Mux.cmdPhase at h2
    split at h2
    · have hcd := command_events_cmdish mx.cmds m _ h2
      simp [Event.cmdish] at hcd
    · simp at h2

/-- C4: when the command phase held a (non-skip) error, any hears
invocation reporting handled clears it, so no error line is written;
when none reports handled, the writer receives exactly one
`"error, ..."` line for that held error. -/
theorem hears_handled_clears_command_error (mx : Mux) (m : Message) (e : Err)
    (hcmd : (mx.cmdPhase m).2.1 = some e) (hskip : e ≠ Err.skipHears) :
    ((runHearsAll mx.hears (mx.msgAfterCmd m)).2 = true →
        mx.heldErr m = none ∧
        (mx.Handle m).events =
          mx.rawEvents m ++ (mx.cmdPhase m).1
            ++ (runHearsAll mx.hears (mx.msgAfterCmd m)).1) ∧
    ((runHearsAll mx.hears (mx.msgAfterCmd m)).2 = false →
        (mx.Handle m).events =
          mx.rawEvents m ++ (mx.cmdPhase m).1
            ++ (runHearsAll mx.hears (mx.msgAfterCmd m)).1 ++ [errorLine e]) := by
  have hns : ¬ (mx.cmdPhase m).2.1 = some Err.skipHears := by
    rw [hcmd]
    intro hcontra
    injection hcontra with h'
    exact hskip h'
  rw [Handle_eq, if_neg hns]
  unfold Mux.heldErr Mux.msgAfterCmd
  constructor
  · intro hh
    constructor
    · simp [hns, hh]
    · simp [hh]
  · intro hh
    simp [hh, hcmd]

/-- C5: for a message with `ToBot = false`, the command tree is never
run: the trace of `Handle` contains no command-handler invocation,
whatever the message content or args. -/
theorem not_tobot_no_command_invoked (mx : Mux) (m : Message)
    (h : m.toBot = false) :
    ∀ n mm, Event.cmdInvoke n mm ∉ (mx.Handle m).events := by
  intro n mm hmem
  have hcp : mx.cmdPhase m = ([], none, m) := by
    unfold Mux.cmdPhase
    rw [if_neg (by simp [h])]
  rw [Handle_eq, hcp] at hmem
  rw [if_neg (by simp)] at hmem
  dsimp only at hmem
  simp only [List.append_nil, List.nil_append, ite_self, List.mem_append] at hmem
  rcases hmem with h1 | h2
  · rcases rawEvents_shape mx m _ h1 with ⟨nm', heq⟩
    exact Event.noConfusion heq
  · rcases runHearsAll_events _ _ _ h2 with ⟨s, heq⟩ | ⟨nm', heq⟩ <;>
      exact Event.noConfusion heq

/-- Events of the command phase are plain-handler invocations or writer
lines. -/
theorem cmdPhase_events_cmdish (mx : Mux) (m : Message) :
    ∀ e ∈ (mx.cmdPhase m).1, e.cmdish = true := by
  intro e he
  unfold Mux.cmdPhase at he
  split at he
  · exact command_events_cmdish mx.cmds m e he
  · simp at he

/-- The optional trailing error line of `Handle` consists of writer
lines only. -/
theorem errTail_events (o : Option Err) (e : Event)
    (h : e ∈ (match o with
              | some e0 => [errorLine e0]
              | none => ([] : List Event))) :
    ∃ s, e = Event.write s := by
  cases o with
  | none => simp at h
  | some e0 =>
    simp at h
    exact ⟨"error, " ++ e0.text, by rw [h]; rfl⟩

/-- C7 (amended): raw and hears handler invocations each receive an
isolated copy of the message — every raw handler is started with the
incoming message value, and every hears handler is invoked with exactly
the post-command-phase message, so no hears or raw handler's mutation
is ever observable elsewhere — but the command tree runs on the
caller's message itself, so the caller's message after `Handle` is
precisely the message as the command phase mutated it. -/
theorem handlers_get_copies_except_command (mx : Mux) (m : Message) :
    (mx.Handle m).msg = mx.msgAfterCmd m ∧
    (∀ n mm, Event.rawStart n mm ∈ (mx.Handle m).events → mm = m) ∧
    (∀ n mm, Event.hearsInvoke n mm ∈ (mx.Handle m).events →
      mm = mx.msgAfterCmd m) := by
  rw [Handle_eq]
  unfold Mux.msgAfterCmd
  by_cases hskip : (mx.cmdPhase m).2.1 = some Err.skipHears
  · rw [if_pos hskip]
    refine ⟨rfl, ?_, ?_⟩
    · intro n mm hmem
      rcases List.mem_append.1 hmem with h1 | h2
      · rcases rawEvents_shape mx m _ h1 with ⟨nm, heq⟩
        injection heq with _ hm
      · exact absurd (cmdPhase_events_cmdish mx m _ h2) (by simp [Event.cmdish])
    · intro n mm hmem
      rcases List.mem_append.1 hmem with h1 | h2
      · rcases rawEvents_shape mx m _ h1 with ⟨nm, heq⟩
        exact Event.noConfusion heq
      · exact absurd (cmdPhase_events_cmdish mx m _ h2) (by simp [Event.cmdish])
  · rw [if_neg hskip]
    refine ⟨rfl, ?_, ?_⟩
    · intro n mm hmem
      rcases List.mem_append.1 hmem with h12 | h4
      · rcases List.mem_append.1 h12 with h123 | h3
        · rcases List.mem_append.1 h123 with h1 | h2
          · rcases rawEvents_shape mx m _ h1 with ⟨nm, heq⟩
            injection heq with _ hm
          · exact absurd (cmdPhase_events_cmdish mx m _ h2) (by simp [Event.cmdish])
        · rcases runHearsAll_events _ _ _ h3 with ⟨s, heq⟩ | ⟨nm, heq⟩ <;>
            exact Event.noConfusion heq
      · rcases errTail_events _ _ h4 with ⟨s, heq⟩
        exact Event.noConfusion heq
    · intro n mm hmem
      rcases List.mem_append.1 hmem with h12 | h4
      · rcases List.mem_append.1 h12 with h123 | h3
        · rcases List.mem_append.1 h123 with h1 | h2
          · rcases rawEvents_shape mx m _ h1 with ⟨nm, heq⟩
            exact Event.noConfusion heq
          · exact absurd (cmdPhase_events_cmdish mx m _ h2) (by simp [Event.cmdish])
        · rcases runHearsAll_events _ _ _ h3 with ⟨s, heq⟩ | ⟨nm, heq⟩
          · exact Event.noConfusion heq
          · injection heq with _ hm
      · rcases errTail_events _ _ h4 with ⟨s, heq⟩
        exact Event.noConfusion heq

/-- C7 (counterexample): not every handler invocation receives its own
copy of the message.  The command tree receives the caller's message
itself: after `Handle`, the caller's message has been mutated, and the
hears handler was invoked with the mutated message, not the original
one. -/
theorem command_mutation_is_observable :
    (mxMut.Handle mMut).msg ≠ mMut ∧
    Event.hearsInvoke "hh" mMutated ∈ (mxMut.Handle mMut).events := by
  decide

/-- Witness for C3 at a concrete input: the registered always-matching
hears handler is not invoked once the skip command ran. -/
theorem skiphears_suppresses_hears_witness :
    Event.hearsInvoke "hh" mSkip ∉ (mxSkip.Handle mSkip).events :=
  (skiphears_suppresses_hears mxSkip mSkip (by decide)).2.2 "hh" mSkip

/-- Witness for C4 at a concrete input: no hears handler reports
handled, so the held "kaboom" error produces exactly one trailing
error line. -/
theorem hears_handled_clears_command_error_witness :
    (mxBoom.Handle mBoom).events =
      mxBoom.rawEvents mBoom ++ (mxBoom.cmdPhase mBoom).1
        ++ (runHearsAll mxBoom.hears (mxBoom.msgAfterCmd mBoom)).1
        ++ [errorLine (Err.other "kaboom")] :=
  (hears_handled_clears_command_error mxBoom mBoom (Err.other "kaboom")
    (by decide) (by decide)).2 (by decide)

/-- Witness for C5 at a concrete input: the registered "mut" command
handler is not invoked when the same message arrives with
`ToBot = false`. -/
theorem not_tobot_no_command_invoked_witness :
    Event.cmdInvoke "mut" mNotToBot ∉ (mxMut.Handle mNotToBot).events :=
  not_tobot_no_command_invoked mxMut mNotToBot (by decide) "mut" mNotToBot

/-- Witness for the amended C7 at a concrete input: the hears handler
was invoked with the post-command (mutated) message, and the caller's
message after `Handle` is that same mutated message. -/
theorem handlers_get_copies_except_command_witness :
    mMutated = mxMut.msgAfterCmd mMut ∧
    (mxMut.Handle mMut).msg = mxMut.msgAfterCmd mMut :=
  ⟨(handlers_get_copies_except_command mxMut mMut).2.2 "hh" mMutated (by decide),
    (handlers_get_copies_except_command mxMut mMut).1⟩

/-- C6 (code bug): registering a pre-built `*CommandMux` installs it in
the parent's child map under its name, but returns nil — the local
`subMux` variable of `AddCommandHandler` is never assigned in that
branch — rather than the installed node, so nested registrations
cannot attach beneath it. -/
theorem addCommandHandler_prebuilt_installs_but_returns_nil :
    ((NewCommandMux none).AddCommandHandler (.mux preBuilt)).2 = none ∧
    List.lookup "sub"
      ((NewCommandMux none).AddCommandHandler (.mux preBuilt)).1.subCmds
      = some preBuilt := by
  exact ⟨rfl, rfl⟩

/-- C8: `Mux.Add` probes the handler against every capability in turn,
registers it into exactly the registries whose capability it
implements, fails with the unusable-handler error if and only if it
implements none, and otherwise returns a nil error and appends the
handler to the flat list of all registered handlers. -/
theorem add_probes_every_capability (mx : Mux) (h : GenHandler) :
    ((mx.Add h).2 = if h.unusable then some unusableErr else none) ∧
    ((mx.Add h).1.rhndlrs = mx.rhndlrs ++
      (match h.raw with | some x => [x] | none => [])) ∧
    ((mx.Add h).1.bghndlrs = mx.bghndlrs ++
      (match h.bg with | some x => [x] | none => [])) ∧
    ((mx.Add h).1.cmds =
      (match h.cmd with
       | some c => (mx.cmds.AddCommandHandler c).1
       | none => mx.cmds)) ∧
    ((mx.Add h).1.hears =
      (match h.hears with
       | some x => insertHears mx.hears x.patternId x
       | none => mx.hears)) ∧
    ((mx.Add h).1.httpm =
      (match h.http with
       | some x => mx.httpm.Handle ("/" ++ mx.name ++ "/" ++ x.name) x
       | none => mx.httpm)) ∧
    ((mx.Add h).1.hndlrs =
      if h.unusable then mx.hndlrs else mx.hndlrs ++ [h]) := by
  obtain ⟨nm, d, raw, bg, cmd, hrs, http⟩ := h
  cases raw <;> cases bg <;> cases cmd <;> cases hrs <;> cases http <;>
    simp [Mux.Add, Mux.AddRawHandler, Mux.AddBackgroundHandler,
      Mux.AddCommandHandler, Mux.AddHearsHandler, Mux.AddHTTPHandler,
      GenHandler.unusable, unusableErr]

/-- Looking up the path just bound in the router finds the handler just
bound. -/
theorem lookup_insertPath (l : List (String × HTTPHandler)) (p : String)
    (h : HTTPHandler) :
    List.lookup p (insertPath l p h) = some h := by
  induction l with
  | nil => simp [insertPath, List.lookup]
  | cons kv rest ihl =>
    obtain ⟨k, v⟩ := kv
    by_cases hk : k = p
    · subst hk
      simp [insertPath, List.lookup]
    · have h1 : (k == p) = false := beq_eq_false_iff_ne.2 hk
      have h2 : (p == k) = false := beq_eq_false_iff_ne.2 (Ne.symm hk)
      simp [insertPath, h1, h2, List.lookup, ihl]

/-- C9: `AddHTTPHandler` binds the handler at exactly
`/<mux name>/<handler name>` in the router and returns that path; in
particular a handler named "status" on a mux named "bot" lands at
"/bot/status". -/
theorem addhttp_binds_dispatcher_slash_handler (mx : Mux) (h : HTTPHandler) :
    (mx.AddHTTPHandler h).2 = "/" ++ mx.name ++ "/" ++ h.name ∧
    List.lookup ("/" ++ mx.name ++ "/" ++ h.name)
      ((mx.AddHTTPHandler h).1.httpm.entries) = some h ∧
    ((NewMux "bot" "").AddHTTPHandler ⟨"status", "status page"⟩).2
      = "/bot/status" := by
  refine ⟨rfl, ?_, by decide⟩
  exact lookup_insertPath mx.httpm.entries ("/" ++ mx.name ++ "/" ++ h.name) h

/-- C10: every `Mux` built by `NewMux` — not only the default one — has
the self-describing help handler registered into its root command tree
at construction: the child map binds "help" and is non-empty as soon as
`NewMux` returns. -/
theorem newmux_registers_help (name desc : String) :
    List.lookup "help" (NewMux name desc).cmds.subCmds
      = some (NewCommandMux (some muxHelp)) ∧
    (NewMux name desc).cmds.subCmds ≠ [] := by
  constructor
  · rfl
  · have hsub : (NewMux name desc).cmds.subCmds
        = [("help", NewCommandMux (some muxHelp))] := rfl
    rw [hsub]
    simp

end Hugot
